import Mathlib

/-!
Verification of the caching / history-tracking data layer of the
ArxivExplorer server (`src/server.py`).

The layer persists two DynamoDB collections:
* `papers`, keyed by `url`, holding items with attributes
  `url`, `title`, `summary` (possibly `None`) and `timestamp`;
* `searches`, keyed by `search_id`, holding items with attributes
  `search_id`, `query`, `results` and `timestamp`.

The embedding models each collection as a list of records in which the
key occurs at most once (DynamoDB `put_item` replaces the item with the
same key).  A DynamoDB item may lack attributes, so the attributes of a
paper item other than its key are `Option`-typed; `summary = none`
models both an absent attribute and the `NULL` value stored by
`save_paper`'s default `summary=None` (the Python code only ever reads
them through `dict.get`, which does not distinguish the two).

Timestamps (`datetime.now().isoformat()`) are modelled as abstract
instants `Nat`; lexicographic comparison of equal-format ISO strings
agrees with the chronological order, so sorting by the string key is
sorting by the instant.  The external Tavily client and the wall clock
are passed in as parameters (`qna`, `resp`, `now`): the functions below
are the Python bodies with those calls made explicit.
-/

/-- A DynamoDB item of the `papers` table.  `url` is the hash key and is
always present; the remaining attributes may be absent, which matters
because `update_item` writes only the attribute it sets. -/
structure PaperRec where
  url : String
  title : Option String
  summary : Option String
  timestamp : Option Nat
  deriving Repr, DecidableEq

/-- One `{title, url}` result entry, as built by `search_arxiv` and stored
inside a search item's `results` attribute. -/
structure PaperPair where
  title : String
  url : String
  deriving Repr, DecidableEq

/-- A DynamoDB item of the `searches` table.  `save_search` always writes
all four attributes, so they are total here. -/
structure SearchRec where
  search_id : String
  query : String
  results : List PaperPair
  timestamp : Nat
  deriving Repr, DecidableEq

/-- `papers_table.put_item`: replace the item with the same `url` key, or
add the item if the key is new. -/
def putPaper (rec : PaperRec) : List PaperRec → List PaperRec
  | [] => [rec]
  | p :: ps => if p.url == rec.url then rec :: ps else p :: putPaper rec ps

/-- `searches_table.put_item`: replace the item with the same `search_id`
key, or add the item if the key is new. -/
def putSearch (rec : SearchRec) : List SearchRec → List SearchRec
  | [] => [rec]
  | s :: ss => if s.search_id == rec.search_id then rec :: ss else s :: putSearch rec ss

/-- `papers_table.update_item(Key={'url': url}, UpdateExpression='SET summary = :summary', ...)`:
set only the `summary` attribute of the item with key `url`, leaving its
other attributes untouched.  On a missing key DynamoDB `update_item`
creates an item holding only the key and the written attribute. -/
def updateSummary (url s : String) : List PaperRec → List PaperRec
  | [] => [{ url := url, title := none, summary := some s, timestamp := none }]
  | p :: ps =>
    if p.url == url then { p with summary := some s } :: ps
    else p :: updateSummary url s ps

/-- `save_paper(title, url, summary=None)` (src/server.py:97-106): put a
full item `{url, title, summary, timestamp: now}` into `papers`. -/
def save_paper (title url : String) (summary : Option String) (now : Nat)
    (ps : List PaperRec) : List PaperRec :=
  putPaper { url := url, title := some title, summary := summary, timestamp := some now } ps

/-- `get_paper(url)` (src/server.py:108-114) on the success path:
`get_item` returns the item with key `url`, or absence. -/
def get_paper (url : String) (ps : List PaperRec) : Option PaperRec :=
  ps.find? (fun p => p.url == url)

/-- `datetime.now().strftime('%Y%m%d_%H%M%S')`: render the current instant
as a non-empty digit string; second resolution makes the rendering a
function of the instant. -/
def compactTs (t : Nat) : String :=
  toString t

/-- `save_search(query, results)` (src/server.py:116-127): build
`search_id = f"{query}_{timestamp}"`, put the full item into `searches`,
and return the identifier. -/
def save_search (query : String) (results : List PaperPair) (now : Nat)
    (ss : List SearchRec) : String × List SearchRec :=
  let search_id := query ++ "_" ++ compactTs now
  (search_id,
   putSearch { search_id := search_id, query := query, results := results, timestamp := now } ss)

/-- Python truthiness of `item.get('summary')`: `None` and the empty
string are falsy, any other string is truthy. -/
def summaryTruthy : Option String → Bool
  | none => false
  | some s => ! s.isEmpty

/-- The summary-attaching block of `summarize_paper` (src/server.py:190-199),
named `attachSummary` by the spec: if an item exists for `paper_url`,
set only its `summary` attribute via `update_item`; otherwise create a
fresh item through `save_paper` with the placeholder title. -/
def attach_summary (paper_url summary : String) (now : Nat)
    (ps : List PaperRec) : List PaperRec :=
  match get_paper paper_url ps with
  | some _ => updateSummary paper_url summary ps
  | none => save_paper "Unknown Title" paper_url (some summary) now ps

/-- `summarize_paper(paper_url)` (src/server.py:174-202).  The Tavily
question-answering call is the oracle `qna`; the returned triple is
(returned summary, papers collection afterwards, whether `qna_search`
was invoked). -/
def summarize_paper (qna : String → String) (paper_url : String) (now : Nat)
    (ps : List PaperRec) : String × List PaperRec × Bool :=
  let cached_paper := get_paper paper_url ps
  if summaryTruthy (cached_paper.bind PaperRec.summary) then
    ((cached_paper.bind PaperRec.summary).getD "", ps, false)
  else
    let prompt := "Summarize the key contributions of this ArXiv paper: " ++ paper_url
    let summary := qna prompt
    (summary, attach_summary paper_url summary now ps, true)

/-- One entry of the Tavily search response consumed by `search_arxiv`:
`r["title"]` and `r["url"]`. -/
structure TavilyResult where
  title : String
  url : String
  deriving Repr, DecidableEq

/-- The two DynamoDB tables used by the layer. -/
structure Store where
  papers : List PaperRec
  searches : List SearchRec
  deriving Repr, DecidableEq

/-- The result-accumulating loop of `search_arxiv` (src/server.py:155-164):
for each response entry, build `{title: r["title"].strip(), url: r["url"]}`,
append it to `results`, and `save_paper` it (title only, no summary). -/
def searchLoop (now : Nat) (rs : List TavilyResult)
    (results : List PaperPair) (ps : List PaperRec) : List PaperPair × List PaperRec :=
  match rs with
  | [] => (results, ps)
  | r :: rest =>
    let paper_data : PaperPair := { title := r.title.trim, url := r.url }
    searchLoop now rest (results ++ [paper_data])
      (save_paper paper_data.title paper_data.url none now ps)

/-- `search_arxiv(query, max_results)` (src/server.py:142-170) after the
Tavily call: run the caching loop over the response entries, then
`save_search` the query with the full result list, and return the
result list. -/
def search_arxiv (query : String) (resp : List TavilyResult) (now : Nat)
    (st : Store) : List PaperPair × Store :=
  let (results, ps) := searchLoop now resp [] st.papers
  let (_, ss) := save_search query results now st.searches
  (results, { papers := ps, searches := ss })

/-- A two-entry Tavily response used as concrete test data. -/
def sampleResp : List TavilyResult :=
  [{ title := " A ", url := "u1" }, { title := "B", url := "u2" }]

/-- The view of a search item returned by `get_search_history`
(src/server.py:217-222). -/
structure HistoryView where
  search_id : String
  query : String
  timestamp : Nat
  result_count : Nat
  deriving Repr, DecidableEq

/-- The view of a paper item returned by `get_saved_papers`
(src/server.py:237-242). -/
structure SavedView where
  title : String
  url : String
  has_summary : Bool
  timestamp : Nat
  deriving Repr, DecidableEq

/-- The sort order of `get_search_history`:
`sorted(items, key=lambda x: x['timestamp'], reverse=True)` orders by
timestamp descending. -/
def tsGE (a b : SearchRec) : Prop :=
  b.timestamp ≤ a.timestamp

instance : DecidableRel tsGE :=
  fun a b => Nat.decLe b.timestamp a.timestamp

instance : IsTotal SearchRec tsGE :=
  ⟨fun a b => le_total b.timestamp a.timestamp⟩

instance : IsTrans SearchRec tsGE :=
  ⟨fun _ _ _ h1 h2 => le_trans h2 h1⟩

/-- The projection of one search item (src/server.py:217-222):
`result_count` is `len(item.get('results', []))`. -/
def projSearchItem (item : SearchRec) : HistoryView :=
  { search_id := item.search_id, query := item.query,
    timestamp := item.timestamp, result_count := item.results.length }

/-- The projection of one paper item (src/server.py:237-242):
`item['title']` and `item['timestamp']` raise `KeyError` when the
attribute is absent (modelled as `none`), while
`has_summary = bool(item.get('summary'))` tolerates absence. -/
def projPaperItem (item : PaperRec) : Option SavedView :=
  match item.title, item.timestamp with
  | some t, some ts =>
    some { title := t, url := item.url, has_summary := summaryTruthy item.summary,
           timestamp := ts }
  | _, _ => none

/-- The list comprehension of `get_saved_papers`: project the items in
order, aborting on the first `KeyError`. -/
def projAll : List PaperRec → Option (List SavedView)
  | [] => some []
  | p :: ps =>
    match projPaperItem p, projAll ps with
    | some v, some vs => some (v :: vs)
    | _, _ => none

/-- `get_search_history(limit)` (src/server.py:206-225) as a function of
the outcome of `searches_table.scan(Limit=limit)` (DynamoDB returns at
most `limit` items, in no guaranteed order): a raised error is swallowed
and yields `[]`; otherwise the retrieved page is sorted by timestamp
descending and projected. -/
def get_search_history (scanResp : Except String (List SearchRec)) : List HistoryView :=
  match scanResp with
  | .error _ => []
  | .ok items =>
    let sorted_items := List.insertionSort tsGE items
    sorted_items.map projSearchItem

/-- `get_saved_papers(limit)` (src/server.py:229-245) as a function of
the outcome of `papers_table.scan(Limit=limit)`: a raised error is
swallowed and yields `[]`; otherwise each item of the page is projected
in scan order, with no sort.  A `KeyError` inside the comprehension is
caught by the same handler, so a page holding an item without `title` or
`timestamp` also yields `[]`. -/
def get_saved_papers (scanResp : Except String (List PaperRec)) : List SavedView :=
  match scanResp with
  | .error _ => []
  | .ok items =>
    match projAll items with
    | some views => views
    | none => []

/-- Attribute-completeness of a paper item: `title` and `timestamp` are
present (the `url` key always is). -/
def completeItem (p : PaperRec) : Bool :=
  p.title.isSome && p.timestamp.isSome

/-- A two-item papers page used as concrete test data. -/
def samplePage : List PaperRec :=
  [{ url := "u", title := some "T", summary := some "s", timestamp := some 1 },
   { url := "v", title := some "V", summary := none, timestamp := some 2 }]

/-- A search item with timestamp 0, used as concrete test data. -/
def sampleSearchA : SearchRec :=
  { search_id := "a_0", query := "a", results := [], timestamp := 0 }

/-- A search item with timestamp 5, used as concrete test data. -/
def sampleSearchB : SearchRec :=
  { search_id := "b_5", query := "b", results := [], timestamp := 5 }

-- ### Theorems

theorem get_paper_putPaper_self (rec : PaperRec) (ps : List PaperRec) :
    get_paper rec.url (putPaper rec ps) = some rec := by
  induction ps with
  | nil => simp [get_paper, putPaper]
  | cons p ps ih =>
    by_cases h : p.url == rec.url
    · simp [putPaper, h, get_paper]
    · simp only [putPaper, h, if_neg]
      simp only [get_paper, List.find?] at ih ⊢
      simp [h, ih]

/-- C1: saving `(t2, u)` with no summary after saving `(t1, u, s)` fully
replaces the stored item: `get_paper u` then yields title `t2`, summary
absent (the prior summary `s` is erased) and the second write's
timestamp — `save_paper` is a full-replace upsert with no field merge. -/
theorem save_paper_full_replace (t1 t2 u s : String) (now1 now2 : Nat)
    (ps : List PaperRec) :
    get_paper u (save_paper t2 u none now2 (save_paper t1 u (some s) now1 ps)) =
      some { url := u, title := some t2, summary := none, timestamp := some now2 } := by
  have := get_paper_putPaper_self
    { url := u, title := some t2, summary := none, timestamp := some now2 }
    (save_paper t1 u (some s) now1 ps)
  simpa [save_paper] using this

theorem get_paper_updateSummary (u s : String) (ps : List PaperRec) (p : PaperRec)
    (h : get_paper u ps = some p) :
    get_paper u (updateSummary u s ps) = some { p with summary := some s } := by
  induction ps with
  | nil => simp [get_paper] at h
  | cons q ps ih =>
    by_cases hq : q.url == u
    · simp only [get_paper, List.find?, hq] at h
      cases h
      simp [updateSummary, eq_of_beq hq, get_paper, List.find?, hq]
    · simp only [get_paper, List.find?, hq] at h
      have hne : ¬(q.url == u) = true := by simp_all
      have hrec := ih (by simpa [get_paper] using h)
      by_cases hq2 : q.url == u
      · exact absurd hq2 hne
      · simp only [updateSummary]
        rw [if_neg (by simpa [beq_iff_eq] using fun he => hne (by simp [he]))]
        simpa [get_paper, List.find?, hq] using hrec

theorem summarize_paper_hit (qna : String → String) (u s : String) (now : Nat)
    (ps : List PaperRec)
    (h : (get_paper u ps).bind PaperRec.summary = some s) (hs : s ≠ "") :
    summarize_paper qna u now ps = (s, ps, false) := by
  have hie : s.isEmpty = false := by
    cases hse : s.isEmpty with
    | false => rfl
    | true => exact absurd ((String.isEmpty_iff s).mp hse) hs
  simp [summarize_paper, h, summaryTruthy, hie]

theorem summarize_paper_stores_result (qna : String → String) (u : String) (now : Nat)
    (ps : List PaperRec) :
    (get_paper u (summarize_paper qna u now ps).2.1).bind PaperRec.summary =
      some (summarize_paper qna u now ps).1 := by
  rcases hg : get_paper u ps with _ | p
  · have hrec := get_paper_putPaper_self
      { url := u, title := some "Unknown Title",
        summary := some (qna ("Summarize the key contributions of this ArXiv paper: " ++ u)),
        timestamp := some now } ps
    simp [summarize_paper, hg, summaryTruthy, attach_summary, save_paper] at hrec ⊢
    simp [hrec]
  · by_cases hs : summaryTruthy p.summary = true
    · rcases hps : p.summary with _ | s
      · rw [hps] at hs; simp [summaryTruthy] at hs
      · rw [hps] at hs
        simp [summarize_paper, hg, Option.bind, hps, hs]
    · have hs' : summaryTruthy p.summary = false := by simpa using hs
      have hupd := get_paper_updateSummary u
        (qna ("Summarize the key contributions of this ArXiv paper: " ++ u)) ps p hg
      simp [summarize_paper, hg, Option.bind, hs', attach_summary, hupd]

/-- C2: when the stored Paper for `u` has a non-empty summary `s`,
`summarize_paper` returns `s` with no external `qna_search` call and no
store write; consequently a second call after a first call whose
computed summary is non-empty makes no external call and returns the
same summary on the unchanged store. -/
theorem summarize_paper_cache_idempotent (qna : String → String) (u s : String)
    (now : Nat) (ps : List PaperRec)
    (h : (get_paper u ps).bind PaperRec.summary = some s) (hs : s ≠ "")
    (ps0 : List PaperRec) (now0 now2 : Nat)
    (h0 : (summarize_paper qna u now0 ps0).1 ≠ "") :
    summarize_paper qna u now ps = (s, ps, false) ∧
    summarize_paper qna u now2 (summarize_paper qna u now0 ps0).2.1 =
      ((summarize_paper qna u now0 ps0).1, (summarize_paper qna u now0 ps0).2.1, false) :=
  ⟨summarize_paper_hit qna u s now ps h hs,
   summarize_paper_hit qna u _ now2 _ (summarize_paper_stores_result qna u now0 ps0) h0⟩

theorem summarize_paper_cache_idempotent_witness :
    ((get_paper "u" [{ url := "u", title := some "T", summary := some "s",
                       timestamp := some 0 }]).bind PaperRec.summary = some "s") ∧
    ("s" : String) ≠ "" ∧
    ((summarize_paper (fun _ => "w") "u" 0 []).1 ≠ "") ∧
    (summarize_paper (fun _ => "w") "u" 5
        [{ url := "u", title := some "T", summary := some "s", timestamp := some 0 }] =
          ("s", [{ url := "u", title := some "T", summary := some "s", timestamp := some 0 }],
            false) ∧
      summarize_paper (fun _ => "w") "u" 7 (summarize_paper (fun _ => "w") "u" 0 []).2.1 =
        ((summarize_paper (fun _ => "w") "u" 0 []).1,
          (summarize_paper (fun _ => "w") "u" 0 []).2.1, false)) :=
  ⟨by decide, by decide, by decide,
   summarize_paper_cache_idempotent (fun _ => "w") "u" "s" 5
     [{ url := "u", title := some "T", summary := some "s", timestamp := some 0 }]
     (by decide) (by decide) [] 0 7 (by decide)⟩

/-- C3: `attach_summary` on a store holding an item for `u` changes only
that item's `summary` attribute (title and the rest of the record are
preserved); on a store with no item for `u` it creates an item with the
placeholder title "Unknown Title" and summary `s`. -/
theorem attach_summary_partial_update (u s : String) (now : Nat)
    (ps1 : List PaperRec) (p : PaperRec) (h1 : get_paper u ps1 = some p)
    (ps2 : List PaperRec) (h2 : get_paper u ps2 = none) :
    get_paper u (attach_summary u s now ps1) = some { p with summary := some s } ∧
    get_paper u (attach_summary u s now ps2) =
      some { url := u, title := some "Unknown Title", summary := some s,
             timestamp := some now } := by
  constructor
  · unfold attach_summary
    rw [h1]
    exact get_paper_updateSummary u s ps1 p h1
  · unfold attach_summary
    rw [h2]
    simpa [save_paper] using get_paper_putPaper_self
      { url := u, title := some "Unknown Title", summary := some s, timestamp := some now } ps2

theorem attach_summary_partial_update_witness :
    (get_paper "u" [{ url := "u", title := some "T", summary := none, timestamp := some 3 }] =
        some { url := "u", title := some "T", summary := none, timestamp := some 3 }) ∧
    (get_paper "u" ([] : List PaperRec) = none) ∧
    (get_paper "u" (attach_summary "u" "s" 9
        [{ url := "u", title := some "T", summary := none, timestamp := some 3 }]) =
          some { url := "u", title := some "T", summary := some "s", timestamp := some 3 } ∧
      get_paper "u" (attach_summary "u" "s" 9 []) =
        some { url := "u", title := some "Unknown Title", summary := some "s",
               timestamp := some 9 }) :=
  ⟨by decide, by decide,
   attach_summary_partial_update "u" "s" 9
     [{ url := "u", title := some "T", summary := none, timestamp := some 3 }]
     { url := "u", title := some "T", summary := none, timestamp := some 3 }
     (by decide) [] (by decide)⟩

/-- C9 counterexample: writing a summary through `summarize_paper`'s
`update_item` path at instant 1, on a record created by `save_paper` at
instant 0, leaves the stored timestamp at 0 — the write does NOT update
the timestamp to the current write time, refuting the claim that every
write to a Paper record does so. -/
theorem paper_timestamp_not_last_write :
    (get_paper "u" (summarize_paper (fun _ => "s") "u" 1
        (save_paper "T" "u" none 0 [])).2.1).bind PaperRec.timestamp = some 0 ∧
    (get_paper "u" (summarize_paper (fun _ => "s") "u" 1
        (save_paper "T" "u" none 0 [])).2.1).bind PaperRec.timestamp ≠ some 1 := by
  decide

/-- C9 amended: `save_paper` sets the stored timestamp to the write
instant (so full upserts do refresh it), but `summarize_paper`'s partial
summary update on an existing record leaves the stored timestamp
unchanged — the timestamp reflects the last full `save_paper` write, not
every write. -/
theorem paper_timestamp_save_vs_update (t u : String) (s : Option String) (now : Nat)
    (ps : List PaperRec) (qna : String → String) (u2 : String) (now2 : Nat)
    (ps2 : List PaperRec) (p : PaperRec) (h : get_paper u2 ps2 = some p) :
    (get_paper u (save_paper t u s now ps)).bind PaperRec.timestamp = some now ∧
    (get_paper u2 (summarize_paper qna u2 now2 ps2).2.1).bind PaperRec.timestamp =
      p.timestamp := by
  constructor
  · simpa [save_paper] using congrArg (fun o => o.bind PaperRec.timestamp)
      (get_paper_putPaper_self { url := u, title := some t, summary := s,
                                 timestamp := some now } ps)
  · by_cases hs : summaryTruthy p.summary = true
    · rcases hps : p.summary with _ | s'
      · rw [hps] at hs; simp [summaryTruthy] at hs
      · rw [hps] at hs
        simp [summarize_paper, h, Option.bind, hps, hs]
    · have hs' : summaryTruthy p.summary = false := by simpa using hs
      have hupd := get_paper_updateSummary u2
        (qna ("Summarize the key contributions of this ArXiv paper: " ++ u2)) ps2 p h
      simp [summarize_paper, h, Option.bind, hs', attach_summary, hupd]

theorem paper_timestamp_save_vs_update_witness :
    (get_paper "u" [{ url := "u", title := some "T", summary := some "s",
                      timestamp := some 2 }] =
      some { url := "u", title := some "T", summary := some "s", timestamp := some 2 }) ∧
    ((get_paper "a" (save_paper "A" "a" none 4 [])).bind PaperRec.timestamp = some 4 ∧
      (get_paper "u" (summarize_paper (fun _ => "w") "u" 9
          [{ url := "u", title := some "T", summary := some "s",
               timestamp := some 2 }]).2.1).bind PaperRec.timestamp = some 2) :=
  ⟨by decide,
   paper_timestamp_save_vs_update "A" "a" none 4 [] (fun _ => "w") "u" 9
     [{ url := "u", title := some "T", summary := some "s", timestamp := some 2 }]
     { url := "u", title := some "T", summary := some "s", timestamp := some 2 }
     (by decide)⟩

theorem get_paper_putPaper_other (rec : PaperRec) (ps : List PaperRec) (u : String)
    (h : rec.url ≠ u) : get_paper u (putPaper rec ps) = get_paper u ps := by
  induction ps with
  | nil => simp [get_paper, putPaper, h]
  | cons p ps ih =>
    by_cases hp : p.url == rec.url
    · have hpu : ¬(p.url == u) = true := by
        simp only [beq_iff_eq] at hp ⊢
        rw [hp]; exact h
      simp [putPaper, hp, get_paper, List.find?, h, hpu]
    · simp only [putPaper, hp, if_neg]
      simp only [get_paper, List.find?] at ih ⊢
      cases hpu : p.url == u <;> simp [hpu, ih]

theorem searchLoop_spec (now : Nat) (rs : List TavilyResult)
    (results : List PaperPair) (ps : List PaperRec) :
    searchLoop now rs results ps =
      (results ++ rs.map (fun r => { title := r.title.trim, url := r.url : PaperPair }),
       rs.foldl (fun ps r => save_paper r.title.trim r.url none now ps) ps) := by
  induction rs generalizing results ps with
  | nil => simp [searchLoop]
  | cons r rest ih => simp [searchLoop, ih]

theorem get_paper_foldl_save_other (now : Nat) (rs : List TavilyResult)
    (ps : List PaperRec) (u : String) (h : ∀ r ∈ rs, r.url ≠ u) :
    get_paper u (rs.foldl (fun ps r => save_paper r.title.trim r.url none now ps) ps) =
      get_paper u ps := by
  induction rs generalizing ps with
  | nil => rfl
  | cons r rest ih =>
    have hstep : get_paper u (save_paper r.title.trim r.url none now ps) = get_paper u ps :=
      get_paper_putPaper_other _ ps u (h r (List.mem_cons_self r rest))
    simp only [List.foldl_cons]
    rw [ih _ (fun r' hr' => h r' (List.mem_cons_of_mem r hr')), hstep]

theorem get_paper_foldl_save_mem (now : Nat) (rs : List TavilyResult)
    (ps : List PaperRec) (r : TavilyResult) (hr : r ∈ rs)
    (hnd : (rs.map TavilyResult.url).Nodup) :
    get_paper r.url (rs.foldl (fun ps r => save_paper r.title.trim r.url none now ps) ps) =
      some { url := r.url, title := some r.title.trim, summary := none,
             timestamp := some now } := by
  induction rs generalizing ps with
  | nil => cases hr
  | cons r0 rest ih =>
    simp only [List.map_cons, List.nodup_cons, List.mem_map] at hnd
    rcases List.mem_cons.mp hr with rfl | hmem
    · simp only [List.foldl_cons]
      rw [get_paper_foldl_save_other now rest _ r.url
        (fun r' hr' heq => hnd.1 ⟨r', hr', heq⟩)]
      simpa [save_paper] using get_paper_putPaper_self
        { url := r.url, title := some r.title.trim, summary := none,
          timestamp := some now } ps
    · simp only [List.foldl_cons]
      exact ih _ hmem hnd.2

theorem get_paper_foldl_save_of_mem_url (now : Nat) (rs : List TavilyResult)
    (ps : List PaperRec) (u : String) (hr : ∃ r ∈ rs, r.url = u) :
    ∃ r' ∈ rs, r'.url = u ∧
      get_paper u (rs.foldl (fun ps r => save_paper r.title.trim r.url none now ps) ps) =
        some { url := u, title := some r'.title.trim, summary := none,
               timestamp := some now } := by
  induction rs generalizing ps with
  | nil => obtain ⟨r1, hr1, _⟩ := hr; cases hr1
  | cons r0 rest ih =>
    by_cases hrest : ∃ rr ∈ rest, rr.url = u
    · obtain ⟨r', hr', hu, hg⟩ := ih (save_paper r0.title.trim r0.url none now ps) hrest
      refine ⟨r', List.mem_cons_of_mem r0 hr', hu, ?_⟩
      simp only [List.foldl_cons]
      exact hg
    · have hr0 : r0.url = u := by
        obtain ⟨r1, hr1, hr1u⟩ := hr
        rcases List.mem_cons.mp hr1 with rfl | hmem1
        · exact hr1u
        · exact absurd ⟨r1, hmem1, hr1u⟩ hrest
      subst hr0
      refine ⟨r0, List.mem_cons_self r0 rest, rfl, ?_⟩
      simp only [List.foldl_cons]
      rw [get_paper_foldl_save_other now rest _ r0.url
        (fun r' hr' heq => hrest ⟨r', hr', heq⟩)]
      simpa [save_paper] using get_paper_putPaper_self
        { url := r0.url, title := some r0.title.trim, summary := none,
          timestamp := some now } ps

/-- C4: for every query and provider response, `search_arxiv` returns
exactly the whitespace-trimmed `{title, url}` pairs of the response; the
papers table afterwards is the response folded through `save_paper` with
the trimmed title and no summary (one title-only Paper write per pair,
so every returned url maps to a summary-free record whose title is the
trimmed title of a response entry with that url); and the searches table
gains the single record holding the query and the full result list —
written with the completed list, i.e. after all per-paper writes. -/
theorem search_arxiv_caches_and_records (query : String) (resp : List TavilyResult)
    (now : Nat) (st : Store) :
    (search_arxiv query resp now st).1 =
      resp.map (fun r => { title := r.title.trim, url := r.url : PaperPair }) ∧
    (search_arxiv query resp now st).2.papers =
      resp.foldl (fun ps r => save_paper r.title.trim r.url none now ps) st.papers ∧
    (search_arxiv query resp now st).2.searches =
      putSearch { search_id := query ++ "_" ++ compactTs now, query := query,
                  results := resp.map
                    (fun r => { title := r.title.trim, url := r.url : PaperPair }),
                  timestamp := now } st.searches ∧
    ∀ r ∈ resp, ∃ r' ∈ resp, r'.url = r.url ∧
      get_paper r.url (search_arxiv query resp now st).2.papers =
        some { url := r.url, title := some r'.title.trim, summary := none,
               timestamp := some now } := by
  have hloop := searchLoop_spec now resp [] st.papers
  refine ⟨?_, ?_, ?_, ?_⟩
  · simp [search_arxiv, hloop]
  · simp [search_arxiv, hloop]
  · simp [search_arxiv, hloop, save_search]
  · intro r hr
    obtain ⟨r', hr', hu, hg⟩ :=
      get_paper_foldl_save_of_mem_url now resp st.papers r.url ⟨r, hr, rfl⟩
    exact ⟨r', hr', hu, by simpa [search_arxiv, hloop] using hg⟩

theorem mem_putSearch (rec : SearchRec) (ss : List SearchRec) :
    rec ∈ putSearch rec ss := by
  induction ss with
  | nil => simp [putSearch]
  | cons s ss ih =>
    by_cases h : s.search_id == rec.search_id <;> simp [putSearch, h, ih]

/-- C8: `save_search` is total and unconditional: for every query and
results list it stores the full record (no dedup or uniqueness check —
the record is present afterwards whatever the prior contents) and
returns the identifier `query ++ "_" ++ <second-resolution timestamp>`,
which is never empty; in particular the identifier for query "x" with
empty results is non-empty. -/
theorem save_search_total_nonempty (query : String) (results : List PaperPair)
    (now : Nat) (ss : List SearchRec) :
    (save_search query results now ss).1 = query ++ "_" ++ compactTs now ∧
    (save_search query results now ss).1 ≠ "" ∧
    ({ search_id := query ++ "_" ++ compactTs now, query := query,
       results := results, timestamp := now } : SearchRec) ∈
      (save_search query results now ss).2 ∧
    (save_search "x" ([] : List PaperPair) now ss).1 ≠ "" := by
  have hne : ∀ q : String, q ++ "_" ++ compactTs now ≠ "" := by
    intro q hcontra
    have hlen := congrArg String.length hcontra
    have h1 : ("_" : String).length = 1 := rfl
    have h0 : ("" : String).length = 0 := rfl
    rw [String.length_append, String.length_append, h1, h0] at hlen
    omega
  exact ⟨rfl, hne query, mem_putSearch _ ss, hne "x"⟩

/-- C7: a failed table scan is swallowed: both `get_search_history` and
`get_saved_papers` return the empty list instead of propagating the
raised error.  Both operations only read — the embedding consumes the
scan outcome and performs no write, mirroring the Python bodies, which
contain no `put_item`/`update_item`. -/
theorem scan_error_returns_empty (e : String) :
    get_search_history (.error e) = [] ∧ get_saved_papers (.error e) = [] :=
  ⟨rfl, rfl⟩

theorem summaryTruthy_iff (os : Option String) :
    summaryTruthy os = true ↔ ∃ s, os = some s ∧ s ≠ "" := by
  cases os with
  | none => simp [summaryTruthy]
  | some s =>
    constructor
    · intro h
      refine ⟨s, rfl, fun hs => ?_⟩
      rw [hs] at h
      exact absurd h (by decide)
    · rintro ⟨s', hs', hne⟩
      injection hs' with hss
      subst hss
      have hie : s.isEmpty = false := by
        cases hse : s.isEmpty with
        | false => rfl
        | true => exact absurd ((String.isEmpty_iff s).mp hse) hne
      simp [summaryTruthy, hie]

theorem projAll_complete (page : List PaperRec)
    (hc : ∀ p ∈ page, completeItem p = true) :
    projAll page = some (page.map (fun p =>
      { title := p.title.getD "", url := p.url,
        has_summary := summaryTruthy p.summary, timestamp := p.timestamp.getD 0 })) := by
  induction page with
  | nil => rfl
  | cons p rest ih =>
    have hp := hc p (List.mem_cons_self p rest)
    simp only [completeItem, Bool.and_eq_true, Option.isSome_iff_exists] at hp
    obtain ⟨⟨t, ht⟩, ⟨ts, hts⟩⟩ := hp
    rw [List.map_cons]
    simp [projAll, projPaperItem, ht, hts,
      ih (fun q hq => hc q (List.mem_cons_of_mem p hq))]

/-- C6: on a successful scan page of at most `limit` attribute-complete
paper items, `get_saved_papers` returns at most `limit` views, applies
no sort (the output is the in-order projection of the page), and each
item's `has_summary` is true exactly when its stored summary is present
and non-empty. -/
theorem get_saved_papers_projection (limit : Nat) (page : List PaperRec)
    (hlen : page.length ≤ limit) (hc : ∀ p ∈ page, completeItem p = true) :
    (get_saved_papers (.ok page)).length ≤ limit ∧
    get_saved_papers (.ok page) = page.map (fun p =>
      { title := p.title.getD "", url := p.url,
        has_summary := summaryTruthy p.summary, timestamp := p.timestamp.getD 0 }) ∧
    ∀ p ∈ page, (summaryTruthy p.summary = true ↔ ∃ s, p.summary = some s ∧ s ≠ "") := by
  have hall := projAll_complete page hc
  refine ⟨?_, ?_, fun p _ => summaryTruthy_iff p.summary⟩
  · simpa [get_saved_papers, hall] using hlen
  · simp [get_saved_papers, hall]

theorem get_saved_papers_projection_witness :
    (samplePage.length ≤ 2) ∧
    (∀ p ∈ samplePage, completeItem p = true) ∧
    ((get_saved_papers (.ok samplePage)).length ≤ 2 ∧
     get_saved_papers (.ok samplePage) = samplePage.map (fun p =>
       { title := p.title.getD "", url := p.url,
         has_summary := summaryTruthy p.summary, timestamp := p.timestamp.getD 0 }) ∧
     ∀ p ∈ samplePage,
       (summaryTruthy p.summary = true ↔ ∃ s, p.summary = some s ∧ s ≠ "")) :=
  ⟨by decide, by decide, get_saved_papers_projection 2 samplePage (by decide) (by decide)⟩

/-- C5: `get_search_history` on a successful scan page — any sub-multiset
of the searches table of at most `limit` items, DynamoDB guaranteeing no
scan order — returns a permutation of the page's projection, sorted by
timestamp descending, of length at most `limit`, with each view
projecting a stored record and carrying `result_count` equal to the
length of that record's results list; and (final conjunct) a valid page
can omit the table's most recent search, so the output is a sorted
arbitrary page, not the `limit` most recent searches overall. -/
theorem get_search_history_sorted_page (limit : Nat) (coll page : List SearchRec)
    (hlen : page.length ≤ limit) (hsub : page.Subperm coll) :
    (get_search_history (.ok page)).length ≤ limit ∧
    List.Sorted (fun a b : HistoryView => b.timestamp ≤ a.timestamp)
      (get_search_history (.ok page)) ∧
    (get_search_history (.ok page)).Perm (page.map projSearchItem) ∧
    (∀ v ∈ get_search_history (.ok page), ∃ rec ∈ coll, v = projSearchItem rec ∧
      v.result_count = rec.results.length) ∧
    (∃ coll2 page2 : List SearchRec, page2.Subperm coll2 ∧ page2.length ≤ 1 ∧
      ∃ rec ∈ coll2, ∀ v ∈ get_search_history (.ok page2),
        v.timestamp < rec.timestamp) := by
  have hperm : (List.insertionSort tsGE page).Perm page := List.perm_insertionSort tsGE page
  refine ⟨?_, ?_, ?_, ?_, ?_⟩
  · simp only [get_search_history, List.length_map]
    rw [hperm.length_eq]
    exact hlen
  · exact List.Pairwise.map projSearchItem (fun a b h => h)
      (List.sorted_insertionSort tsGE page)
  · exact hperm.map projSearchItem
  · intro v hv
    simp only [get_search_history, List.mem_map] at hv
    obtain ⟨item, hitem, rfl⟩ := hv
    exact ⟨item, hsub.subset (hperm.mem_iff.mp hitem), rfl, rfl⟩
  · refine ⟨[sampleSearchA, sampleSearchB], [sampleSearchA],
      ⟨[sampleSearchA], List.Perm.refl _, List.Sublist.cons₂ _ (List.nil_sublist _)⟩,
      by decide, sampleSearchB, by decide, by decide⟩

theorem get_search_history_sorted_page_witness :
    ([sampleSearchB, sampleSearchA].length ≤ 3) ∧
    ([sampleSearchB, sampleSearchA].Subperm [sampleSearchA, sampleSearchB]) ∧
    ((get_search_history (.ok [sampleSearchB, sampleSearchA])).length ≤ 3 ∧
     List.Sorted (fun a b : HistoryView => b.timestamp ≤ a.timestamp)
       (get_search_history (.ok [sampleSearchB, sampleSearchA])) ∧
     (get_search_history (.ok [sampleSearchB, sampleSearchA])).Perm
       ([sampleSearchB, sampleSearchA].map projSearchItem) ∧
     (∀ v ∈ get_search_history (.ok [sampleSearchB, sampleSearchA]),
       ∃ rec ∈ [sampleSearchA, sampleSearchB], v = projSearchItem rec ∧
         v.result_count = rec.results.length) ∧
     (∃ coll2 page2 : List SearchRec, page2.Subperm coll2 ∧ page2.length ≤ 1 ∧
       ∃ rec ∈ coll2, ∀ v ∈ get_search_history (.ok page2),
         v.timestamp < rec.timestamp)) :=
  ⟨by decide,
   ⟨[sampleSearchA, sampleSearchB], List.Perm.swap sampleSearchB sampleSearchA [],
    List.Sublist.refl _⟩,
   get_search_history_sorted_page 3 [sampleSearchA, sampleSearchB]
     [sampleSearchB, sampleSearchA] (by decide)
     ⟨[sampleSearchA, sampleSearchB], List.Perm.swap sampleSearchB sampleSearchA [],
      List.Sublist.refl _⟩⟩

theorem mem_putPaper (q rec : PaperRec) (ps : List PaperRec)
    (h : q ∈ putPaper rec ps) : q = rec ∨ q ∈ ps := by
  induction ps with
  | nil => simpa [putPaper] using h
  | cons p rest ih =>
    by_cases hp : p.url == rec.url
    · rw [putPaper, if_pos hp] at h
      rcases List.mem_cons.mp h with rfl | hmem
      · exact Or.inl rfl
      · exact Or.inr (List.mem_cons_of_mem p hmem)
    · rw [putPaper, if_neg hp] at h
      rcases List.mem_cons.mp h with rfl | hmem
      · exact Or.inr (List.mem_cons_self q rest)
      · rcases ih hmem with h1 | h2
        · exact Or.inl h1
        · exact Or.inr (List.mem_cons_of_mem p h2)

theorem mem_updateSummary_found (u s : String) (ps : List PaperRec) (q : PaperRec)
    (hfound : (ps.find? (fun p => p.url == u)).isSome = true)
    (h : q ∈ updateSummary u s ps) :
    (∃ p ∈ ps, q = { p with summary := some s }) ∨ q ∈ ps := by
  induction ps with
  | nil => simp [List.find?] at hfound
  | cons p rest ih =>
    by_cases hp : p.url == u
    · rw [updateSummary, if_pos hp] at h
      rcases List.mem_cons.mp h with rfl | hmem
      · exact Or.inl ⟨p, List.mem_cons_self p rest, rfl⟩
      · exact Or.inr (List.mem_cons_of_mem p hmem)
    · rw [updateSummary, if_neg hp] at h
      have hfound' : (rest.find? (fun p => p.url == u)).isSome = true := by
        rw [List.find?] at hfound
        cases hpu : (p.url == u) with
        | true => exact absurd hpu (by simpa using hp)
        | false => rwa [hpu] at hfound
      rcases List.mem_cons.mp h with rfl | hmem
      · exact Or.inr (List.mem_cons_self q rest)
      · rcases ih hfound' hmem with ⟨p', hp', hq⟩ | hmem'
        · exact Or.inl ⟨p', List.mem_cons_of_mem p hp', hq⟩
        · exact Or.inr (List.mem_cons_of_mem p hmem')

theorem complete_save_paper (t u : String) (s : Option String) (now : Nat)
    (ps : List PaperRec) (hc : ∀ p ∈ ps, completeItem p = true) :
    ∀ p ∈ save_paper t u s now ps, completeItem p = true := by
  intro q hq
  rw [save_paper] at hq
  rcases mem_putPaper q _ ps hq with rfl | hmem
  · rfl
  · exact hc q hmem

theorem complete_summarize (qna : String → String) (u : String) (now : Nat)
    (ps : List PaperRec) (hc : ∀ p ∈ ps, completeItem p = true) :
    ∀ p ∈ (summarize_paper qna u now ps).2.1, completeItem p = true := by
  intro q hq
  by_cases ht : summaryTruthy ((get_paper u ps).bind PaperRec.summary) = true
  · simp only [summarize_paper, ht, if_pos] at hq
    exact hc q hq
  · have ht' : summaryTruthy ((get_paper u ps).bind PaperRec.summary) = false := by
      simpa using ht
    simp only [summarize_paper, ht', Bool.false_eq_true, if_false] at hq
    rcases hg : get_paper u ps with _ | p
    · rw [attach_summary, hg] at hq
      exact complete_save_paper _ _ _ _ _ hc q hq
    · have hfound : (ps.find? (fun p => p.url == u)).isSome = true := by
        rw [get_paper] at hg
        rw [hg]
        rfl
      rw [attach_summary, hg] at hq
      rcases mem_updateSummary_found u _ ps q hfound hq with ⟨p', hp', rfl⟩ | hmem
      · exact hc p' hp'
      · exact hc q hmem

theorem complete_foldl_save (now : Nat) (rs : List TavilyResult) (ps : List PaperRec)
    (hc : ∀ p ∈ ps, completeItem p = true) :
    ∀ p ∈ rs.foldl (fun ps r => save_paper r.title.trim r.url none now ps) ps,
      completeItem p = true := by
  induction rs generalizing ps with
  | nil => exact hc
  | cons r rest ih =>
    simp only [List.foldl_cons]
    exact ih _ (complete_save_paper _ _ _ _ _ hc)

/-- C10: every operation of the layer preserves attribute-completeness
of the papers table — `save_paper` always writes `url`, `title` and
`timestamp`; `summarize_paper`'s partial update only runs when the item
already exists (otherwise it falls back to `save_paper`); `search_arxiv`
only writes through `save_paper` — so on any scan page drawn from such a
store, the per-item attribute accesses of `get_saved_papers`' projection
never hit a missing attribute. -/
theorem paper_items_complete_invariant (t u : String) (s : Option String)
    (now : Nat) (ps : List PaperRec) (hc : ∀ p ∈ ps, completeItem p = true)
    (qna : String → String) (query : String) (resp : List TavilyResult) (st : Store)
    (hcst : ∀ p ∈ st.papers, completeItem p = true) :
    (∀ p ∈ save_paper t u s now ps, completeItem p = true) ∧
    (∀ p ∈ (summarize_paper qna u now ps).2.1, completeItem p = true) ∧
    (∀ p ∈ (search_arxiv query resp now st).2.papers, completeItem p = true) ∧
    ∀ page : List PaperRec, page.Subperm ps → (projAll page).isSome = true := by
  refine ⟨complete_save_paper t u s now ps hc, complete_summarize qna u now ps hc,
    ?_, ?_⟩
  · intro q hq
    have hloop := searchLoop_spec now resp [] st.papers
    simp only [search_arxiv, hloop] at hq
    exact complete_foldl_save now resp st.papers hcst q hq
  · intro page hsub
    rw [projAll_complete page (fun p hp => hc p (hsub.subset hp))]
    rfl

theorem paper_items_complete_invariant_witness :
    (∀ p ∈ samplePage, completeItem p = true) ∧
    (∀ p ∈ ({ papers := samplePage, searches := [] } : Store).papers,
      completeItem p = true) ∧
    ((∀ p ∈ save_paper "T2" "u" none 4 samplePage, completeItem p = true) ∧
     (∀ p ∈ (summarize_paper (fun _ => "x") "u" 4 samplePage).2.1,
       completeItem p = true) ∧
     (∀ p ∈ (search_arxiv "q" sampleResp 4
        { papers := samplePage, searches := [] }).2.papers, completeItem p = true) ∧
     ∀ page : List PaperRec, page.Subperm samplePage → (projAll page).isSome = true) :=
  ⟨by decide, by decide,
   paper_items_complete_invariant "T2" "u" none 4 samplePage (by decide)
     (fun _ => "x") "q" sampleResp { papers := samplePage, searches := [] } (by decide)⟩

theorem save_paper_full_replace_witness :
    get_paper "u" (save_paper "T2" "u" none 1 (save_paper "T1" "u" (some "S") 0 [])) =
      some { url := "u", title := some "T2", summary := none, timestamp := some 1 } :=
  save_paper_full_replace "T1" "T2" "u" "S" 0 1 []

theorem scan_error_returns_empty_witness :
    get_search_history (.error "boom") = [] ∧ get_saved_papers (.error "boom") = [] :=
  scan_error_returns_empty "boom"

theorem save_search_total_nonempty_witness :
    (save_search "x" [] 7 []).1 = "x" ++ "_" ++ compactTs 7 ∧
    (save_search "x" [] 7 []).1 ≠ "" ∧
    ({ search_id := "x" ++ "_" ++ compactTs 7, query := "x",
       results := [], timestamp := 7 } : SearchRec) ∈ (save_search "x" [] 7 []).2 ∧
    (save_search "x" ([] : List PaperPair) 7 []).1 ≠ "" :=
  save_search_total_nonempty "x" [] 7 []
